import Mathlib

/-!
Verification of the delta-hedging core of the paradex_lighter_arb repository.

The development shallowly embeds the decision logic of `hedge_system.py`,
`hedge_engine.py`, `lighter_trading.py` and `option_positions_db.py`:
float arithmetic is modelled over `ℚ`, fallible external calls
(market data, venue inventory, greeks, order submission) are modelled as
`Option`-valued oracles passed in as parameters, and the sqlite tables are
modelled as association lists kept in insertion order.
-/

namespace ParadexLighterArb

/-! ## Data model (`hedge_system.py`) -/

/-- A row of the `option_positions` table (`option_positions_db.py`):
symbol, signed lot count, and the cached delta-per-unit (nullable). -/
structure StoredPosition where
  symbol : String
  quantity : ℤ
  delta : Option ℚ
deriving DecidableEq, Repr

/-- The `HedgeRequirement` dataclass of `hedge_system.py`. -/
structure HedgeRequirement where
  underlying_symbol : String
  current_delta : ℚ
  current_price : ℚ
  target_hedge_position : ℚ
  current_position : ℚ
  position_diff : ℚ
  trade_amount : ℚ
  threshold_met : Bool
  action_needed : String
deriving DecidableEq, Repr

/-- The `option_to_underlying` mapping of `HedgeSystem.__init__`. -/
def option_to_underlying : List (String × String) :=
  [("SOL", "SOL"), ("ETH", "ETH"), ("BTC", "BTC"), ("HYPE", "HYPE")]

/-- Python's `str.split(sep)` for a one-character separator, recursing over
the character list (`"".split('-') == ['']`). -/
def pySplit (sep : Char) : List Char → List String
  | [] => [""]
  | c :: rest =>
    if c = sep then "" :: pySplit sep rest
    else
      match pySplit sep rest with
      | [] => [String.singleton c]
      | h :: t => (String.singleton c ++ h) :: t

/-- Python's `str.upper()` (ASCII as used by the ticker symbols). -/
def pyUpper (s : String) : String :=
  String.mk (s.toList.map Char.toUpper)

/-- `HedgeSystem.extract_underlying_symbol`: split the option symbol on `-`,
upper-case the first part and look it up in `option_to_underlying`. -/
def extract_underlying_symbol (option_symbol : String) : Option String :=
  match pySplit '-' option_symbol.toList with
  | [] => none
  | p :: _ =>
    match option_to_underlying.lookup (pyUpper p) with
    | some u => some u
    | none => none

/-- Add `c` to the entry of key `u` of an insertion-ordered association list,
appending a fresh entry at the end when the key is absent (the Python dict
update in `calculate_delta_exposure_by_underlying`). -/
def addDelta : List (String × ℚ) → String → ℚ → List (String × ℚ)
  | [], u, c => [(u, c)]
  | (k, v) :: rest, u, c =>
    if k = u then (k, v + c) :: rest else (k, v) :: addDelta rest u c

/-- One iteration of the aggregation loop of
`HedgeSystem.calculate_delta_exposure_by_underlying`: positions whose
underlying cannot be resolved or whose delta is `None` are skipped. -/
def expStep (acc : List (String × ℚ)) (p : StoredPosition) : List (String × ℚ) :=
  match extract_underlying_symbol p.symbol, p.delta with
  | some u, some dlt => addDelta acc u ((p.quantity : ℚ) * dlt)
  | _, _ => acc

/-- `HedgeSystem.calculate_delta_exposure_by_underlying`. -/
def calculate_delta_exposure_by_underlying (positions : List StoredPosition) :
    List (String × ℚ) :=
  positions.foldl expStep []

/-- Association-list lookup (first match), i.e. Python dict access. -/
def lookupExposure : List (String × ℚ) → String → Option ℚ
  | [], _ => none
  | (k, v) :: rest, u => if k = u then some v else lookupExposure rest u

/-- The per-underlying body of `HedgeSystem.get_hedge_requirements`:
`market` models `lighter_market.get_market_by_symbol` (returning the
`last_trade_price`), `inv` models `get_position_by_symbol` (venue inventory,
`none` when the venue reports no position).  Returns `none` when the
underlying is skipped. -/
def processUnderlying (threshold_pct : ℚ) (market inv : String → Option ℚ)
    (underlying : String) (total_delta : ℚ) : Option HedgeRequirement :=
  match market underlying with
  | none => none
  | some current_price =>
    if current_price ≤ 0 then none
    else
      let target_hedge_position : ℚ := -total_delta
      let current_position : ℚ := (inv underlying).getD 0
      let position_diff : ℚ := target_hedge_position - current_position
      let threshold_amount : ℚ := |target_hedge_position| * (threshold_pct / 100)
      let threshold_met : Bool := decide (threshold_amount < |position_diff|)
      some {
        underlying_symbol := underlying
        current_delta := total_delta
        current_price := current_price
        target_hedge_position := target_hedge_position
        current_position := current_position
        position_diff := position_diff
        trade_amount := if threshold_met then |position_diff| else 0
        threshold_met := threshold_met
        action_needed :=
          if threshold_met then (if 0 < position_diff then "BUY" else "SELL")
          else "NONE" }

/-- The loop of `HedgeSystem.get_hedge_requirements` over the exposure map. -/
def evaluate_exposures (threshold_pct : ℚ) (market inv : String → Option ℚ)
    (exposures : List (String × ℚ)) : List HedgeRequirement :=
  exposures.filterMap (fun e => processUnderlying threshold_pct market inv e.1 e.2)

/-- `HedgeSystem.get_hedge_requirements`. -/
def get_hedge_requirements (threshold_pct : ℚ) (market inv : String → Option ℚ)
    (positions : List StoredPosition) : List HedgeRequirement :=
  evaluate_exposures threshold_pct market inv
    (calculate_delta_exposure_by_underlying positions)

/-! ## Order execution (`hedge_system.execute_hedge_order` composed with
`lighter_trading.create_market_order`) -/

/-- The arguments handed to `LighterTrader.create_market_order`. -/
structure MarketOrderSubmission where
  symbol : String
  amount : ℚ
  price : ℚ
  is_ask : Bool
deriving DecidableEq, Repr

/-- The fixed `price_tolerance = 0.01` of `HedgeSystem.execute_hedge_order`. -/
def price_tolerance : ℚ := 1 / 100

/-- The order price computed by `HedgeSystem.execute_hedge_order`:
sells use `current_price * (1 - tolerance)`, buys `current_price * (1 + tolerance)`. -/
def hedge_order_price (req : HedgeRequirement) : ℚ :=
  if req.action_needed = "SELL" then req.current_price * (1 - price_tolerance)
  else req.current_price * (1 + price_tolerance)

/-- The extra slippage adjustment of `LighterTrader.create_market_order`
(`price = price*0.9 if is_ask else price*1.1`). -/
def trader_adjusted_price (price : ℚ) (is_ask : Bool) : ℚ :=
  if is_ask then price * (9 / 10) else price * (11 / 10)

/-- The worst-acceptable price the composed execution path hands to the venue
(before integer scaling by the price precision). -/
def submitted_worst_price (req : HedgeRequirement) : ℚ :=
  trader_adjusted_price (hedge_order_price req) (req.action_needed == "SELL")

/-- `HedgeSystem.execute_hedge_order`: a no-op on `NONE`, otherwise it calls
`create_market_order` with the computed amount, price and side. -/
def execute_hedge_order (req : HedgeRequirement) : Option MarketOrderSubmission :=
  if req.action_needed = "NONE" then none
  else some {
    symbol := req.underlying_symbol
    amount := req.trade_amount
    price := hedge_order_price req
    is_ask := req.action_needed == "SELL" }

/-! ## Batch executor (`hedge_engine.execute_hedge_orders`) -/

/-- The `HedgeRecommendation` dataclass of `hedge_engine.py`. -/
structure HedgeRecommendation where
  underlying : String
  current_delta : ℚ
  required_hedge_amount : ℚ
  hedge_side : String
  current_price : ℚ
  hedge_value : ℚ
  is_required : Bool
deriving DecidableEq, Repr

/-- The `HedgeResult` dataclass of `hedge_engine.py`. -/
structure HedgeResult where
  success : Bool
  underlying : String
  side : String
  amount : ℚ
  price : ℚ
  tx_hash : Option String := none
  error_message : Option String := none
deriving DecidableEq, Repr

/-- A row of the `hedge_orders` table inserted by
`DatabaseManager.add_hedge_order` (`database.py`). -/
structure HedgeOrderRow where
  platform : String
  symbol : String
  side : String
  quantity : ℚ
  price : ℚ
  order_hash : Option String
deriving DecidableEq, Repr

/-- The external collaborators of `HedgeEngine.execute_hedge_orders`:
`size_decimals` models `LighterMarketAPI.get_size_decimals` and `submit`
models `LighterTrader.create_market_order` (a `none` result is a venue
rejection or submission failure). -/
structure EngineEnv where
  size_decimals : String → Option ℕ
  submit : String → ℚ → ℚ → Bool → Option String

/-- Round-half-to-even to the nearest integer (Python's `round`). -/
def roundHalfEven (x : ℚ) : ℤ :=
  let n := ⌊x⌋
  let r := x - n
  if r < 1 / 2 then n
  else if 1 / 2 < r then n + 1
  else if n % 2 = 0 then n else n + 1

/-- Python's `round(x, ndigits)` on exact rationals. -/
def pythonRound (x : ℚ) (ndigits : ℕ) : ℚ :=
  (roundHalfEven (x * 10 ^ ndigits) : ℚ) / 10 ^ ndigits

/-- Python's `' '.join(s)` on a string: the characters of `s` interleaved
with single spaces. -/
def spaceJoin (s : String) : String :=
  String.intercalate " " (s.toList.map String.singleton)

/-- The worst-price computation inside `HedgeEngine.execute_hedge_orders`:
buys use `current_price * 1.05`, sells `current_price * 0.95`. -/
def engine_worst_price (rec : HedgeRecommendation) : ℚ :=
  if rec.hedge_side = "buy" then rec.current_price * (21 / 20)
  else rec.current_price * (19 / 20)

/-- One iteration of the loop of `HedgeEngine.execute_hedge_orders` for one
recommendation: the triple collects the market orders submitted to the venue,
the rows inserted into the persistent `hedge_orders` table, and the
`HedgeResult`s appended to the returned list.  A missing size precision
raises inside the `try` and is caught into a failed result; an amount that
rounds to zero is skipped (`continue`). -/
def perRec (env : EngineEnv) (rec : HedgeRecommendation) :
    List MarketOrderSubmission × List HedgeOrderRow × List HedgeResult :=
  match env.size_decimals rec.underlying with
  | none =>
    ([], [], [{ success := false, underlying := rec.underlying,
                side := if rec.hedge_side = "none" then "unknown" else rec.hedge_side,
                amount := rec.required_hedge_amount, price := rec.current_price,
                error_message := some ("无法获取" ++ rec.underlying ++ "的交易精度") }])
  | some d =>
    let formatted_amount := pythonRound rec.required_hedge_amount d
    if formatted_amount = 0 then ([], [], [])
    else
      let worst_price := engine_worst_price rec
      let is_ask := rec.hedge_side == "sell"
      let sub : MarketOrderSubmission :=
        ⟨rec.underlying, formatted_amount, worst_price, is_ask⟩
      match env.submit rec.underlying formatted_amount worst_price is_ask with
      | some tx =>
        ([sub],
         [⟨"lighter", rec.underlying, rec.hedge_side, formatted_amount,
           rec.current_price, some (spaceJoin tx)⟩],
         [{ success := true, underlying := rec.underlying, side := rec.hedge_side,
            amount := formatted_amount, price := rec.current_price,
            tx_hash := some (spaceJoin tx) }])
      | none =>
        ([sub], [],
         [{ success := false, underlying := rec.underlying, side := rec.hedge_side,
            amount := formatted_amount, price := rec.current_price,
            error_message := some "订单提交失败" }])

/-- The loop of `HedgeEngine.execute_hedge_orders`, appending the
per-recommendation effects in order. -/
def run_hedges (env : EngineEnv) :
    List HedgeRecommendation →
      List MarketOrderSubmission × List HedgeOrderRow × List HedgeResult
  | [] => ([], [], [])
  | rec :: rest =>
    let out := perRec env rec
    let rest_out := run_hedges env rest
    (out.1 ++ rest_out.1, out.2.1 ++ rest_out.2.1, out.2.2 ++ rest_out.2.2)

/-- The `required_hedges` filter of `HedgeEngine.execute_hedge_orders`:
`r.is_required and r.hedge_side != 'none'`. -/
def required_filter (r : HedgeRecommendation) : Bool :=
  r.is_required && !(r.hedge_side == "none")

/-- `HedgeEngine.execute_hedge_orders`. -/
def execute_hedge_orders (env : EngineEnv) (recs : List HedgeRecommendation) :
    List MarketOrderSubmission × List HedgeOrderRow × List HedgeResult :=
  run_hedges env (recs.filter required_filter)

/-! ## Continuous hedge loop (`HedgeSystem.run_hedge_cycle`, continuous mode) -/

/-- Whether one hedge cycle finished normally or raised an exception that the
loop's `except` clause caught. -/
inductive CycleOutcome
  | ok
  | error
deriving DecidableEq, Repr

/-- The backoff sleep of the `except` branch (`await asyncio.sleep(30)`). -/
def backoff_seconds : ℕ := 30

/-- The default `hedge_interval` set in `HedgeSystem.__init__`. -/
def default_hedge_interval : ℕ := 10

/-- The pause taken after a cycle: the normal interval after a clean cycle,
the 30-second backoff after a caught exception. -/
def pauseAfter (interval : ℕ) : CycleOutcome → ℕ
  | CycleOutcome.ok => interval
  | CycleOutcome.error => backoff_seconds

/-- Fuel-bounded model of the `while self.auto_hedge_enabled` loop:
`flag k` is the value of `auto_hedge_enabled` observed at the top of the
`k`-th check (it may be cleared concurrently by `stop_auto_hedge`) and
`outcomes k` is how the `k`-th cycle ends.  The result is the number of
cycles executed when the loop observed a cleared flag (or `none` when fuel
ran out first), paired with the trace of pauses taken between cycles. -/
def runLoop (interval : ℕ) (flag : ℕ → Bool) (outcomes : ℕ → CycleOutcome) :
    ℕ → ℕ → Option ℕ × List ℕ
  | 0, _ => (none, [])
  | fuel + 1, k =>
    if flag k then
      let rest := runLoop interval flag outcomes fuel (k + 1)
      (rest.1, pauseAfter interval (outcomes k) :: rest.2)
    else (some k, [])

/-! ## Position store (`option_positions_db.py`) -/

/-- The `option_positions` table, in rowid order. -/
abbrev Store := List StoredPosition

/-- `SELECT ... WHERE symbol = ?` followed by `fetchone()`: the first row for
the symbol. -/
def findFirst (store : Store) (symbol : String) : Option StoredPosition :=
  store.find? (fun p => p.symbol == symbol)

/-- `UPDATE option_positions SET quantity = ?, delta = ? WHERE id = ?` for the
id fetched above: rewrite the first row of the symbol. -/
def updateFirst : Store → String → ℤ → Option ℚ → Store
  | [], _, _, _ => []
  | p :: rest, symbol, q, d =>
    if p.symbol = symbol then { p with quantity := q, delta := d } :: rest
    else p :: updateFirst rest symbol q d

/-- `OptionPositionsDB.add_position`: `deltaOf` models
`_get_option_delta` (the Paradex greeks fetch).  Returns the Python `bool`
result together with the table after the transaction. -/
def add_position (deltaOf : String → Option ℚ) (store : Store) (symbol : String)
    (quantity : ℤ) : Bool × Store :=
  if quantity = 0 then (false, store)
  else
    match deltaOf symbol with
    | none => (false, store)
    | some dlt =>
      match findFirst store symbol with
      | some p =>
        let new_quantity := p.quantity + quantity
        if new_quantity = 0 then
          (true, store.eraseP (fun r => r.symbol == symbol))
        else (true, updateFirst store symbol new_quantity (some dlt))
      | none => (true, store ++ [⟨symbol, quantity, some dlt⟩])

/-- `OptionPositionsDB.remove_position`. -/
def remove_position (deltaOf : String → Option ℚ) (store : Store) (symbol : String)
    (quantity : ℤ) : Bool × Store :=
  if quantity ≤ 0 then (false, store)
  else
    match findFirst store symbol with
    | none => (false, store)
    | some p =>
      if |p.quantity| < quantity then (false, store)
      else
        let new_quantity :=
          if 0 < p.quantity then p.quantity - quantity else p.quantity + quantity
        if new_quantity = 0 then
          (true, store.eraseP (fun r => r.symbol == symbol))
        else (true, updateFirst store symbol new_quantity (deltaOf symbol))

/-- An operation against the position store. -/
inductive StoreOp
  | add (symbol : String) (quantity : ℤ)
  | remove (symbol : String) (quantity : ℤ)
deriving DecidableEq, Repr

/-- Apply one store operation (keeping only the resulting table). -/
def applyOp (deltaOf : String → Option ℚ) (store : Store) : StoreOp → Store
  | StoreOp.add s q => (add_position deltaOf store s q).2
  | StoreOp.remove s q => (remove_position deltaOf store s q).2

/-- Apply a sequence of store operations. -/
def applyOps (deltaOf : String → Option ℚ) (ops : List StoreOp) (store : Store) :
    Store :=
  ops.foldl (applyOp deltaOf) store

/-- Well-formedness of the table: every active position has a non-zero
quantity, and there is at most one row per symbol. -/
def storeWF (store : Store) : Prop :=
  (∀ p ∈ store, p.quantity ≠ 0) ∧ (store.map (fun p => p.symbol)).Nodup

/-! ## Concrete instances used by the witness and counterexample
theorems -/

def marketW : String → Option ℚ := fun _ => some 100

def invW : String → Option ℚ := fun _ => none

def positionsW : List StoredPosition := [⟨"SOL-USD-215-C", 1, some 1⟩]

def reqW : HedgeRequirement := ⟨"SOL", 1, 100, -1, 0, -1, 1, true, "SELL"⟩

def req3W : HedgeRequirement := ⟨"SOL", 2, 100, -2, 0, -2, 2, true, "SELL"⟩

def market7W : String → Option ℚ := fun s => if s = "SOL" then some 0 else some 100

def inv7W : String → Option ℚ := fun _ => some 0

/-- A position contributes to underlying `u` when its symbol resolves to `u`
and its cached delta is available. -/
def contributes (u : String) (p : StoredPosition) : Bool :=
  (extract_underlying_symbol p.symbol == some u) && p.delta.isSome

/-- The signed delta contribution of one position: `quantity * delta`. -/
def contribution (p : StoredPosition) : ℚ :=
  (p.quantity : ℚ) * p.delta.getD 0

def reqBuyEx : HedgeRequirement := ⟨"SOL", -1, 100, 1, 0, 1, 1, true, "BUY"⟩

def env5W : EngineEnv := ⟨fun _ => some 2, fun _ _ _ _ => some "h"⟩

def rec5W : HedgeRecommendation := ⟨"SOL", -1/1000, 1/1000, "buy", 100, 1/10, true⟩

def rec5W' : HedgeRecommendation := ⟨"ETH", -1, 1, "buy", 1000, 1000, true⟩

def env6W : EngineEnv := ⟨fun _ => some 2, fun _ _ _ _ => some "ab"⟩

def rec6W : HedgeRecommendation := ⟨"SOL", 1, 1, "sell", 100, 100, true⟩

def dOf9W : String → Option ℚ := fun _ => some 1

def ops9W : List StoreOp :=
  [StoreOp.add "SOL-USD-215-C" 2, StoreOp.remove "SOL-USD-215-C" 1]

def store9W : Store := [⟨"SOL-USD-215-C", 2, some 1⟩]

def pos9W : StoredPosition := ⟨"SOL-USD-215-C", 2, some 1⟩

/-! ## Theorems: hedge policy evaluator -/

/-- Inversion for `processUnderlying`: a produced requirement comes from a
positive fetched price and carries exactly the computed fields. -/
theorem processUnderlying_eq_some {tp : ℚ} {market inv : String → Option ℚ}
    {u : String} {d : ℚ} {req : HedgeRequirement}
    (h : processUnderlying tp market inv u d = some req) :
    ∃ price, market u = some price ∧ 0 < price ∧
      req = { underlying_symbol := u, current_delta := d, current_price := price,
              target_hedge_position := -d, current_position := (inv u).getD 0,
              position_diff := -d - (inv u).getD 0,
              trade_amount :=
                if decide (|(-d)| * (tp / 100) < |(-d) - (inv u).getD 0|) then
                  |(-d) - (inv u).getD 0| else 0,
              threshold_met := decide (|(-d)| * (tp / 100) < |(-d) - (inv u).getD 0|),
              action_needed :=
                if decide (|(-d)| * (tp / 100) < |(-d) - (inv u).getD 0|) then
                  (if 0 < -d - (inv u).getD 0 then "BUY" else "SELL")
                else "NONE" } := by
  unfold processUnderlying at h
  cases hm : market u with
  | none => rw [hm] at h; exact absurd h (by simp)
  | some price =>
    rw [hm] at h
    by_cases hp : price ≤ 0
    · simp only [if_pos hp] at h
      exact absurd h (by simp)
    · simp only [if_neg hp] at h
      refine ⟨price, rfl, lt_of_not_le hp, ?_⟩
      have := Option.some.inj h
      subst this
      simp

/-- C1: for every requirement produced by `get_hedge_requirements`,
`threshold_met` holds exactly when `|position_diff|` strictly exceeds
`|target| * (threshold_pct / 100)` (so a zero target flags any non-zero
diff), and the action/trade amount follow the deadband rule. -/
theorem hedge_threshold_policy (tp : ℚ) (market inv : String → Option ℚ)
    (positions : List StoredPosition) (req : HedgeRequirement)
    (h : req ∈ get_hedge_requirements tp market inv positions) :
    (req.threshold_met = true ↔
      |req.target_hedge_position| * (tp / 100) < |req.position_diff|) ∧
    (req.target_hedge_position = 0 → req.position_diff ≠ 0 → req.threshold_met = true) ∧
    (req.threshold_met = false → req.action_needed = "NONE" ∧ req.trade_amount = 0) ∧
    (req.threshold_met = true → req.trade_amount = |req.position_diff| ∧
      req.action_needed = if 0 < req.position_diff then "BUY" else "SELL") := by
  simp only [get_hedge_requirements, evaluate_exposures] at h
  obtain ⟨e, _, hsome⟩ := List.mem_filterMap.1 h
  obtain ⟨price, _, _, hreq⟩ := processUnderlying_eq_some hsome
  subst hreq
  dsimp only
  refine ⟨⟨of_decide_eq_true, decide_eq_true⟩, ?_, ?_, ?_⟩
  · intro h0 hne
    apply decide_eq_true
    rw [h0] at hne ⊢
    simpa using abs_pos.mpr hne
  · intro hf
    exact ⟨if_neg (by rw [hf]; exact Bool.false_ne_true),
           if_neg (by rw [hf]; exact Bool.false_ne_true)⟩
  · intro ht
    exact ⟨if_pos ht, if_pos ht⟩

/-- Witness for C1 at a one-position book: delta 1 on SOL, price 100, no
inventory, threshold 5% → SELL 1. -/
theorem hedge_threshold_policy_witness :
    (reqW.threshold_met = true ↔
      |reqW.target_hedge_position| * ((5 : ℚ) / 100) < |reqW.position_diff|) ∧
    (reqW.target_hedge_position = 0 → reqW.position_diff ≠ 0 → reqW.threshold_met = true) ∧
    (reqW.threshold_met = false → reqW.action_needed = "NONE" ∧ reqW.trade_amount = 0) ∧
    (reqW.threshold_met = true → reqW.trade_amount = |reqW.position_diff| ∧
      reqW.action_needed = if 0 < reqW.position_diff then "BUY" else "SELL") :=
  hedge_threshold_policy 5 marketW invW positionsW reqW (by
    norm_num [get_hedge_requirements, evaluate_exposures, calculate_delta_exposure_by_underlying,
      expStep, (show extract_underlying_symbol "SOL-USD-215-C" = some "SOL" from rfl),
      addDelta, processUnderlying, List.filterMap, List.foldl, marketW, invW, positionsW, reqW])

/-- C3: the produced target hedge inventory is the negation of the net delta,
a missing venue inventory is treated as zero, and
`position_diff = target - current`. -/
theorem hedge_target_sign (tp : ℚ) (market inv : String → Option ℚ) (u : String) (d : ℚ)
    (req : HedgeRequirement) (h : processUnderlying tp market inv u d = some req) :
    req.underlying_symbol = u ∧ req.current_delta = d ∧
    req.target_hedge_position = -d ∧
    req.current_position = (inv u).getD 0 ∧
    (inv u = none → req.current_position = 0) ∧
    req.position_diff = req.target_hedge_position - req.current_position := by
  obtain ⟨price, hm, hp, hreq⟩ := processUnderlying_eq_some h
  subst hreq
  exact ⟨rfl, rfl, rfl, rfl, fun h0 => by simp [h0], rfl⟩

/-- Witness for C3: net delta 2, no venue inventory → target −2, diff −2. -/
theorem hedge_target_sign_witness :
    req3W.underlying_symbol = "SOL" ∧ req3W.current_delta = 2 ∧
    req3W.target_hedge_position = -2 ∧
    req3W.current_position = (invW "SOL").getD 0 ∧
    (invW "SOL" = none → req3W.current_position = 0) ∧
    req3W.position_diff = req3W.target_hedge_position - req3W.current_position :=
  hedge_target_sign 5 marketW invW "SOL" 2 req3W (by
    norm_num [processUnderlying, marketW, invW, req3W])

/-- C7: an underlying with missing market data or a non-positive fetched
price yields no requirement, and the rest of the batch is processed
unchanged. -/
theorem evaluator_skip_unavailable (tp : ℚ) (market inv : String → Option ℚ)
    (u : String) (d : ℚ) (rest : List (String × ℚ))
    (h : market u = none ∨ ∀ p, market u = some p → p ≤ 0) :
    processUnderlying tp market inv u d = none ∧
    evaluate_exposures tp market inv ((u, d) :: rest) =
      evaluate_exposures tp market inv rest := by
  have hnone : processUnderlying tp market inv u d = none := by
    unfold processUnderlying
    rcases h with h | h
    · rw [h]
    · cases hm : market u with
      | none => rfl
      | some p => simp [h p hm]
  exact ⟨hnone, by simp [evaluate_exposures, List.filterMap_cons, hnone]⟩

/-- Witness for C7: SOL's price is reported as 0 → SOL is skipped while the
rest of the batch is still evaluated. -/
theorem evaluator_skip_unavailable_witness :
    processUnderlying 5 market7W inv7W "SOL" 3 = none ∧
    evaluate_exposures 5 market7W inv7W (("SOL", 3) :: [("ETH", 1)]) =
      evaluate_exposures 5 market7W inv7W [("ETH", 1)] :=
  evaluator_skip_unavailable 5 market7W inv7W "SOL" 3 [("ETH", 1)]
    (Or.inr (by intro p hp; simp [market7W] at hp; simp [hp]))

/-! ## Theorems: position aggregator -/

theorem lookup_addDelta (acc : List (String × ℚ)) (u v : String) (c : ℚ) :
    lookupExposure (addDelta acc u c) v =
      if v = u then some ((lookupExposure acc u).getD 0 + c)
      else lookupExposure acc v := by
  induction acc with
  | nil =>
    by_cases h : v = u
    · subst h; simp [addDelta, lookupExposure]
    · simp [addDelta, lookupExposure, h, Ne.symm h]
  | cons kv rest ih =>
    obtain ⟨k, w⟩ := kv
    by_cases hk : k = u
    · subst hk
      by_cases hv : k = v
      · subst hv; simp [addDelta, lookupExposure]
      · simp [addDelta, lookupExposure, hv, Ne.symm hv]
    · by_cases hv : k = v
      · subst hv
        simp [addDelta, lookupExposure, hk, Ne.symm hk]
      · simp [addDelta, lookupExposure, hk, hv, ih]

theorem lookup_foldl_expStep (u : String) (ps : List StoredPosition)
    (acc : List (String × ℚ)) :
    lookupExposure (ps.foldl expStep acc) u =
      match lookupExposure acc u with
      | some s => some (s + ((ps.filter (contributes u)).map contribution).sum)
      | none =>
        if ps.filter (contributes u) = [] then none
        else some ((ps.filter (contributes u)).map contribution).sum := by
  induction ps generalizing acc with
  | nil => cases h : lookupExposure acc u <;> simp [h]
  | cons p ps ih =>
    rw [List.foldl_cons]
    cases hx : extract_underlying_symbol p.symbol with
    | none =>
      have hc : contributes u p = false := by simp [contributes, hx]
      have hstep : expStep acc p = acc := by
        unfold expStep; rw [hx]
      rw [hstep, ih, List.filter_cons_of_neg (by simp [hc])]
    | some u' =>
      cases hd : p.delta with
      | none =>
        have hc : contributes u p = false := by simp [contributes, hd]
        have hstep : expStep acc p = acc := by
          unfold expStep; rw [hx, hd]
        rw [hstep, ih, List.filter_cons_of_neg (by simp [hc])]
      | some dlt =>
        have hstep : expStep acc p = addDelta acc u' ((p.quantity : ℚ) * dlt) := by
          unfold expStep; rw [hx, hd]
        by_cases hu : u' = u
        · subst hu
          have hc : contributes u' p = true := by simp [contributes, hx, hd]
          have hcontr : contribution p = (p.quantity : ℚ) * dlt := by
            simp [contribution, hd]
          rw [hstep, ih, lookup_addDelta, if_pos rfl,
            List.filter_cons_of_pos (by simp [hc])]
          cases h : lookupExposure acc u' with
          | none => simp [hcontr, add_assoc]
          | some s => simp [hcontr, add_assoc]
        · have hc : contributes u p = false := by
            simp [contributes, hx, hd, hu]
          rw [hstep, ih, lookup_addDelta, if_neg (Ne.symm hu),
            List.filter_cons_of_neg (by simp [hc])]

/-- C2: the aggregator's output maps an underlying to the sum of
`quantity * delta` over exactly the contributing positions; an underlying is
present in the map exactly when some position contributes to it, even when
the net sum is zero. -/
theorem delta_exposure_aggregation (positions : List StoredPosition) (u : String) :
    lookupExposure (calculate_delta_exposure_by_underlying positions) u =
      if positions.filter (contributes u) = [] then none
      else some (((positions.filter (contributes u)).map contribution).sum) := by
  have h := lookup_foldl_expStep u positions []
  simpa [calculate_delta_exposure_by_underlying, lookupExposure] using h

/-! ## Theorems: order executor price band -/

/-- Counterexample for C4: a BUY requirement produced by the evaluator at a
reference price of 100 is submitted with a worst price of 111.1 — outside
any 5% band around the reference price (the 1% executor tolerance is
compounded with the trader's extra 10% slippage adjustment). -/
theorem executor_price_band_counterexample :
    processUnderlying 5 marketW (fun _ => some 0) "SOL" (-1) = some reqBuyEx ∧
    execute_hedge_order reqBuyEx = some ⟨"SOL", 1, 101, false⟩ ∧
    submitted_worst_price reqBuyEx = 1111 / 10 ∧
    ¬ |submitted_worst_price reqBuyEx - reqBuyEx.current_price| ≤
        (5 / 100) * reqBuyEx.current_price := by
  have hs : submitted_worst_price reqBuyEx = 1111 / 10 := by
    simp [submitted_worst_price, trader_adjusted_price, hedge_order_price,
      price_tolerance, reqBuyEx]
    norm_num
  refine ⟨?_, ?_, hs, ?_⟩
  · norm_num [processUnderlying, marketW, reqBuyEx]
  · simp [execute_hedge_order, hedge_order_price, price_tolerance, reqBuyEx]
    norm_num
  · rw [hs, show ((1111 : ℚ) / 10 - reqBuyEx.current_price) = 111 / 10 from by
      norm_num [reqBuyEx], abs_of_pos (by norm_num)]
    norm_num [reqBuyEx]

/-- C4 (amended): the executor is a no-op on NONE; otherwise the worst price
handed to the venue is `reference * 1.111` for a BUY (a ceiling above the
reference) and `reference * 0.891` for a SELL (a floor below it) — an
asymmetric band, but wider than 5%. -/
theorem executor_price_band (req : HedgeRequirement) (hp : 0 < req.current_price) :
    (req.action_needed = "NONE" → execute_hedge_order req = none) ∧
    (req.action_needed ≠ "NONE" →
      execute_hedge_order req =
        some ⟨req.underlying_symbol, req.trade_amount, hedge_order_price req,
              req.action_needed == "SELL"⟩) ∧
    (req.action_needed = "BUY" →
      submitted_worst_price req = req.current_price * (1111 / 1000) ∧
      req.current_price < submitted_worst_price req) ∧
    (req.action_needed = "SELL" →
      submitted_worst_price req = req.current_price * (891 / 1000) ∧
      submitted_worst_price req < req.current_price) := by
  refine ⟨fun h => by simp [execute_hedge_order, h],
    fun h => by simp [execute_hedge_order, h], ?_, ?_⟩
  · intro h
    have he : submitted_worst_price req = req.current_price * (1111 / 1000) := by
      simp [submitted_worst_price, trader_adjusted_price, hedge_order_price,
        price_tolerance, h]
      ring
    refine ⟨he, ?_⟩
    rw [he]
    nlinarith
  · intro h
    have he : submitted_worst_price req = req.current_price * (891 / 1000) := by
      simp [submitted_worst_price, trader_adjusted_price, hedge_order_price,
        price_tolerance, h]
      ring
    refine ⟨he, ?_⟩
    rw [he]
    nlinarith

/-- Witness for C4's amended theorem at the concrete BUY requirement. -/
theorem executor_price_band_witness :
    (reqBuyEx.action_needed = "NONE" → execute_hedge_order reqBuyEx = none) ∧
    (reqBuyEx.action_needed ≠ "NONE" →
      execute_hedge_order reqBuyEx =
        some ⟨reqBuyEx.underlying_symbol, reqBuyEx.trade_amount,
              hedge_order_price reqBuyEx, reqBuyEx.action_needed == "SELL"⟩) ∧
    (reqBuyEx.action_needed = "BUY" →
      submitted_worst_price reqBuyEx = reqBuyEx.current_price * (1111 / 1000) ∧
      reqBuyEx.current_price < submitted_worst_price reqBuyEx) ∧
    (reqBuyEx.action_needed = "SELL" →
      submitted_worst_price reqBuyEx = reqBuyEx.current_price * (891 / 1000) ∧
      submitted_worst_price reqBuyEx < reqBuyEx.current_price) :=
  executor_price_band reqBuyEx (by norm_num [reqBuyEx])

/-! ## Theorems: batch executor bookkeeping -/

theorem run_hedges_append (env : EngineEnv) (l1 l2 : List HedgeRecommendation) :
    run_hedges env (l1 ++ l2) =
      ((run_hedges env l1).1 ++ (run_hedges env l2).1,
       (run_hedges env l1).2.1 ++ (run_hedges env l2).2.1,
       (run_hedges env l1).2.2 ++ (run_hedges env l2).2.2) := by
  induction l1 with
  | nil => simp [run_hedges]
  | cons rec rest ih => simp [run_hedges, ih]

/-- C5: a qualifying recommendation whose amount rounds to zero at the
venue's size precision produces no submission, no order row and no result —
the batch behaves as if the recommendation were absent. -/
theorem rounding_to_zero_skip (env : EngineEnv) (pre post : List HedgeRecommendation)
    (rec : HedgeRecommendation) (d : ℕ)
    (h1 : rec.is_required = true) (h2 : rec.hedge_side ≠ "none")
    (h3 : env.size_decimals rec.underlying = some d)
    (h4 : pythonRound rec.required_hedge_amount d = 0) :
    perRec env rec = ([], [], []) ∧
    execute_hedge_orders env (pre ++ rec :: post) =
      execute_hedge_orders env (pre ++ post) := by
  have hper : perRec env rec = ([], [], []) := by
    unfold perRec
    rw [h3]
    simp [h4]
  refine ⟨hper, ?_⟩
  unfold execute_hedge_orders
  rw [List.filter_append, List.filter_append, List.filter_cons]
  by_cases hq : required_filter rec = true
  · rw [if_pos hq]
    rw [run_hedges_append, run_hedges_append]
    simp [run_hedges, hper]
  · rw [if_neg hq]

/-- Witness for C5: an amount of 0.001 rounds to zero at 2 size decimals and
the batch result is as if the recommendation were not there. -/
theorem rounding_to_zero_skip_witness :
    perRec env5W rec5W = ([], [], []) ∧
    execute_hedge_orders env5W ([] ++ rec5W :: [rec5W']) =
      execute_hedge_orders env5W ([] ++ [rec5W']) :=
  rounding_to_zero_skip env5W [] [rec5W'] rec5W 2 rfl (by decide) rfl
    (by norm_num [pythonRound, roundHalfEven, rec5W])


/-- C6 (amended): a qualifying recommendation with available precision and a
non-zero rounded amount triggers exactly one submission attempt (no retry);
on acceptance one order row and one success result are recorded, both
carrying the venue identifier's characters joined with spaces
(`' '.join(tx_hash)`); on rejection no row is written and a single failed
result is returned to the caller. -/
theorem execution_bookkeeping (env : EngineEnv) (rec : HedgeRecommendation) (d : ℕ)
    (h1 : rec.is_required = true) (h2 : rec.hedge_side ≠ "none")
    (h3 : env.size_decimals rec.underlying = some d)
    (h4 : pythonRound rec.required_hedge_amount d ≠ 0) :
    execute_hedge_orders env [rec] = perRec env rec ∧
    (perRec env rec).1 =
      [⟨rec.underlying, pythonRound rec.required_hedge_amount d,
        engine_worst_price rec, rec.hedge_side == "sell"⟩] ∧
    perRec env rec =
      (match env.submit rec.underlying (pythonRound rec.required_hedge_amount d)
          (engine_worst_price rec) (rec.hedge_side == "sell") with
       | some tx =>
         ([⟨rec.underlying, pythonRound rec.required_hedge_amount d,
            engine_worst_price rec, rec.hedge_side == "sell"⟩],
          [⟨"lighter", rec.underlying, rec.hedge_side,
            pythonRound rec.required_hedge_amount d, rec.current_price,
            some (spaceJoin tx)⟩],
          [{ success := true, underlying := rec.underlying, side := rec.hedge_side,
             amount := pythonRound rec.required_hedge_amount d,
             price := rec.current_price, tx_hash := some (spaceJoin tx) }])
       | none =>
         ([⟨rec.underlying, pythonRound rec.required_hedge_amount d,
            engine_worst_price rec, rec.hedge_side == "sell"⟩], [],
          [{ success := false, underlying := rec.underlying, side := rec.hedge_side,
             amount := pythonRound rec.required_hedge_amount d,
             price := rec.current_price,
             error_message := some "订单提交失败" }])) := by
  have hfilter : required_filter rec = true := by
    simp [required_filter, h1, h2]
  have hper : perRec env rec =
      (match env.submit rec.underlying (pythonRound rec.required_hedge_amount d)
          (engine_worst_price rec) (rec.hedge_side == "sell") with
       | some tx =>
         ([⟨rec.underlying, pythonRound rec.required_hedge_amount d,
            engine_worst_price rec, rec.hedge_side == "sell"⟩],
          [⟨"lighter", rec.underlying, rec.hedge_side,
            pythonRound rec.required_hedge_amount d, rec.current_price,
            some (spaceJoin tx)⟩],
          [{ success := true, underlying := rec.underlying, side := rec.hedge_side,
             amount := pythonRound rec.required_hedge_amount d,
             price := rec.current_price, tx_hash := some (spaceJoin tx) }])
       | none =>
         ([⟨rec.underlying, pythonRound rec.required_hedge_amount d,
            engine_worst_price rec, rec.hedge_side == "sell"⟩], [],
          [{ success := false, underlying := rec.underlying, side := rec.hedge_side,
             amount := pythonRound rec.required_hedge_amount d,
             price := rec.current_price,
             error_message := some "订单提交失败" }])) := by
    unfold perRec
    rw [h3]
    simp only [if_neg h4]
  refine ⟨?_, ?_, hper⟩
  · unfold execute_hedge_orders
    rw [show [rec].filter required_filter = [rec] from by simp [hfilter]]
    simp [run_hedges]
  · rw [hper]
    cases env.submit rec.underlying (pythonRound rec.required_hedge_amount d)
        (engine_worst_price rec) (rec.hedge_side == "sell") <;> rfl


/-- Witness for C6's amended theorem: venue id "ab" is stored as "a b". -/
theorem execution_bookkeeping_witness :
    execute_hedge_orders env6W [rec6W] = perRec env6W rec6W ∧
    (perRec env6W rec6W).1 =
      [⟨rec6W.underlying, pythonRound rec6W.required_hedge_amount 2,
        engine_worst_price rec6W, rec6W.hedge_side == "sell"⟩] ∧
    perRec env6W rec6W =
      (match env6W.submit rec6W.underlying (pythonRound rec6W.required_hedge_amount 2)
          (engine_worst_price rec6W) (rec6W.hedge_side == "sell") with
       | some tx =>
         ([⟨rec6W.underlying, pythonRound rec6W.required_hedge_amount 2,
            engine_worst_price rec6W, rec6W.hedge_side == "sell"⟩],
          [⟨"lighter", rec6W.underlying, rec6W.hedge_side,
            pythonRound rec6W.required_hedge_amount 2, rec6W.current_price,
            some (spaceJoin tx)⟩],
          [{ success := true, underlying := rec6W.underlying, side := rec6W.hedge_side,
             amount := pythonRound rec6W.required_hedge_amount 2,
             price := rec6W.current_price, tx_hash := some (spaceJoin tx) }])
       | none =>
         ([⟨rec6W.underlying, pythonRound rec6W.required_hedge_amount 2,
            engine_worst_price rec6W, rec6W.hedge_side == "sell"⟩], [],
          [{ success := false, underlying := rec6W.underlying, side := rec6W.hedge_side,
             amount := pythonRound rec6W.required_hedge_amount 2,
             price := rec6W.current_price,
             error_message := some "订单提交失败" }])) :=
  execution_bookkeeping env6W rec6W 2 rfl (by decide) rfl
    (by norm_num [pythonRound, roundHalfEven, rec6W])

/-- Counterexample for C6 as stated: the venue assigns identifier "ab", but
the appended order row and result carry "a b" — the characters joined with
spaces — so the record does not contain the identifier verbatim (nor as a
substring). -/
theorem execution_bookkeeping_counterexample :
    (execute_hedge_orders env6W [rec6W]).2.1 =
      [⟨"lighter", "SOL", "sell", 1, 100, some "a b"⟩] ∧
    (execute_hedge_orders env6W [rec6W]).2.2 =
      [⟨true, "SOL", "sell", 1, 100, some "a b", none⟩] ∧
    some ("a b" : String) ≠ some ("ab" : String) ∧
    ¬ "ab".toList <:+: "a b".toList := by
  have h : execute_hedge_orders env6W [rec6W] =
      ([⟨"SOL", 1, 95, true⟩],
       [⟨"lighter", "SOL", "sell", 1, 100, some "a b"⟩],
       [⟨true, "SOL", "sell", 1, 100, some "a b", none⟩]) := by
    norm_num [execute_hedge_orders, run_hedges, perRec, env6W, rec6W,
      pythonRound, roundHalfEven, spaceJoin, required_filter, engine_worst_price,
      List.filter]
    decide
  rw [h]
  refine ⟨rfl, rfl, by decide, by decide⟩

/-! ## Theorems: continuous hedge loop -/

theorem runLoop_fst_indep (interval : ℕ) (flag : ℕ → Bool)
    (o o' : ℕ → CycleOutcome) (fuel k : ℕ) :
    (runLoop interval flag o fuel k).1 = (runLoop interval flag o' fuel k).1 := by
  induction fuel generalizing k with
  | zero => rfl
  | succ fuel ih =>
    unfold runLoop
    by_cases hf : flag k
    · simp only [hf, if_true]
      exact ih (k + 1)
    · simp [hf]

theorem runLoop_fst_some_iff (interval : ℕ) (flag : ℕ → Bool)
    (o : ℕ → CycleOutcome) (fuel k n : ℕ) :
    (runLoop interval flag o fuel k).1 = some n ↔
      k ≤ n ∧ n < k + fuel ∧ flag n = false ∧
        ∀ j, k ≤ j → j < n → flag j = true := by
  induction fuel generalizing k with
  | zero =>
    simp only [runLoop]
    constructor
    · intro h; cases h
    · rintro ⟨h1, h2, -, -⟩; omega
  | succ fuel ih =>
    unfold runLoop
    by_cases hf : flag k
    · simp only [hf, if_true]
      rw [ih (k + 1)]
      constructor
      · rintro ⟨h1, h2, h3, h4⟩
        refine ⟨by omega, by omega, h3, ?_⟩
        intro j hj1 hj2
        rcases Nat.eq_or_lt_of_le hj1 with h | h
        · rw [← h]; exact hf
        · exact h4 j h hj2
      · rintro ⟨h1, h2, h3, h4⟩
        have hkn : k ≠ n := by
          intro he; rw [he] at hf; rw [h3] at hf; cases hf
        refine ⟨by omega, by omega, h3, fun j hj1 hj2 => h4 j (by omega) hj2⟩
    · rw [Bool.not_eq_true] at hf
      simp only [hf, Bool.false_eq_true, if_false, Option.some.injEq]
      constructor
      · intro h
        subst h
        exact ⟨le_refl k, by omega, hf, fun j h1 h2 => by omega⟩
      · rintro ⟨h1, h2, h3, h4⟩
        by_contra hne
        have hkn : k < n := by omega
        have := h4 k (le_refl k) hkn
        rw [hf] at this
        cases this
    
theorem runLoop_snd_of_some (interval : ℕ) (flag : ℕ → Bool)
    (o : ℕ → CycleOutcome) (fuel k n : ℕ)
    (h : (runLoop interval flag o fuel k).1 = some n) :
    (runLoop interval flag o fuel k).2 =
      (List.range' k (n - k)).map (fun j => pauseAfter interval (o j)) := by
  induction fuel generalizing k with
  | zero => cases h
  | succ fuel ih =>
    unfold runLoop at h ⊢
    by_cases hf : flag k
    · simp only [hf, if_true] at h ⊢
      have hk1 : k + 1 ≤ n :=
        ((runLoop_fst_some_iff interval flag o fuel (k + 1) n).1 h).1
      have hrange : n - k = (n - (k + 1)) + 1 := by omega
      rw [ih (k + 1) h, hrange, List.range'_succ, List.map_cons]
    · rw [Bool.not_eq_true] at hf
      simp only [hf, Bool.false_eq_true, if_false, Option.some.injEq] at h
      subst h
      simp [hf, Bool.false_eq_true]

/-- C8: modelling the continuous loop as a fuel-bounded step relation, the
loop's termination behaviour is independent of the cycle outcomes (an
erroring cycle never stops it); it stops after `n` cycles exactly when the
enabled flag was observed cleared at check `n` and set at every earlier
check; each executed cycle is followed by its pause, which is the 30-second
backoff after an error cycle — distinct from the default 10-second
inter-cycle interval. -/
theorem hedge_loop_resilience (interval : ℕ) (flag : ℕ → Bool)
    (o o' : ℕ → CycleOutcome) (fuel n : ℕ) :
    (runLoop interval flag o fuel 0).1 = (runLoop interval flag o' fuel 0).1 ∧
    ((runLoop interval flag o fuel 0).1 = some n ↔
      n < fuel ∧ flag n = false ∧ ∀ j, j < n → flag j = true) ∧
    ((runLoop interval flag o fuel 0).1 = some n →
      (runLoop interval flag o fuel 0).2 =
        (List.range n).map (fun j => pauseAfter interval (o j))) ∧
    pauseAfter interval CycleOutcome.error = backoff_seconds ∧
    backoff_seconds = 30 ∧ default_hedge_interval = 10 := by
  refine ⟨runLoop_fst_indep interval flag o o' fuel 0, ?_, ?_, rfl, rfl, rfl⟩
  · rw [runLoop_fst_some_iff]
    constructor
    · rintro ⟨-, h2, h3, h4⟩
      exact ⟨by omega, h3, fun j hj => h4 j (Nat.zero_le j) hj⟩
    · rintro ⟨h1, h2, h3⟩
      exact ⟨Nat.zero_le n, by omega, h2, fun j _ hj => h3 j hj⟩
  · intro h
    rw [runLoop_snd_of_some interval flag o fuel 0 n h, List.range_eq_range']
    simp

/-- Witness for C8: the flag is cleared at check 2; with errors in every
cycle the loop still runs both cycles, backs off 30 seconds after each, and
stops at check 2 exactly as with clean cycles. -/
theorem hedge_loop_resilience_witness :
    (runLoop 10 (fun k => decide (k < 2)) (fun _ => CycleOutcome.error) 5 0).1 =
      (runLoop 10 (fun k => decide (k < 2)) (fun _ => CycleOutcome.ok) 5 0).1 ∧
    ((runLoop 10 (fun k => decide (k < 2)) (fun _ => CycleOutcome.error) 5 0).1 = some 2 ↔
      2 < 5 ∧ (decide (2 < 2)) = false ∧ ∀ j, j < 2 → (decide (j < 2)) = true) ∧
    ((runLoop 10 (fun k => decide (k < 2)) (fun _ => CycleOutcome.error) 5 0).1 = some 2 →
      (runLoop 10 (fun k => decide (k < 2)) (fun _ => CycleOutcome.error) 5 0).2 =
        (List.range 2).map (fun j => pauseAfter 10 ((fun _ => CycleOutcome.error) j))) ∧
    pauseAfter 10 CycleOutcome.error = backoff_seconds ∧
    backoff_seconds = 30 ∧ default_hedge_interval = 10 :=
  hedge_loop_resilience 10 (fun k => decide (k < 2))
    (fun _ => CycleOutcome.error) (fun _ => CycleOutcome.ok) 5 2

/-! ## Theorems: position store -/

theorem mem_updateFirst {store : Store} {s : String} {q : ℤ} {d : Option ℚ}
    {p : StoredPosition} (h : p ∈ updateFirst store s q d) :
    p ∈ store ∨ p.quantity = q := by
  induction store with
  | nil => cases h
  | cons r rest ih =>
    unfold updateFirst at h
    by_cases hr : r.symbol = s
    · rw [if_pos hr] at h
      rcases List.mem_cons.1 h with h | h
      · right; rw [h]
      · left; exact List.mem_cons_of_mem r h
    · rw [if_neg hr] at h
      rcases List.mem_cons.1 h with h | h
      · left; rw [h]; exact List.mem_cons_self r rest
      · rcases ih h with h | h
        · left; exact List.mem_cons_of_mem r h
        · right; exact h

theorem map_symbol_updateFirst (store : Store) (s : String) (q : ℤ) (d : Option ℚ) :
    (updateFirst store s q d).map (fun p => p.symbol) =
      store.map (fun p => p.symbol) := by
  induction store with
  | nil => rfl
  | cons r rest ih =>
    unfold updateFirst
    by_cases hr : r.symbol = s
    · rw [if_pos hr]; rfl
    · rw [if_neg hr]
      simp [ih]

theorem storeWF_eraseP (store : Store) (f : StoredPosition → Bool)
    (h : storeWF store) : storeWF (store.eraseP f) := by
  obtain ⟨h1, h2⟩ := h
  constructor
  · intro p hp
    exact h1 p ((List.eraseP_sublist store).subset hp)
  · exact h2.sublist ((List.eraseP_sublist store).map (fun p => p.symbol))

theorem storeWF_add (deltaOf : String → Option ℚ) (store : Store)
    (s : String) (q : ℤ) (h : storeWF store) :
    storeWF (add_position deltaOf store s q).2 := by
  unfold add_position
  by_cases hq : q = 0
  · rw [if_pos hq]; exact h
  · rw [if_neg hq]
    cases hd : deltaOf s with
    | none => exact h
    | some dlt =>
      cases hp : findFirst store s with
      | some p =>
        by_cases hz : p.quantity + q = 0
        · simp only [hz, if_pos rfl]
          exact storeWF_eraseP store _ h
        · simp only [if_neg hz]
          constructor
          · intro r hr
            rcases mem_updateFirst hr with hr | hr
            · exact h.1 r hr
            · rw [hr]; exact hz
          · rw [map_symbol_updateFirst]
            exact h.2
      | none =>
        have hns : ∀ r ∈ store, r.symbol ≠ s := by
          intro r hr
          have := List.find?_eq_none.1 hp r hr
          simpa using this
        constructor
        · intro r hr
          rcases List.mem_append.1 hr with hr | hr
          · exact h.1 r hr
          · simp only [List.mem_singleton] at hr
            rw [hr]
            exact hq
        · rw [List.map_append]
          simp only [List.map_cons, List.map_nil]
          rw [List.nodup_append]
          refine ⟨h.2, List.nodup_singleton s, ?_⟩
          intro x hx hx2
          simp only [List.mem_singleton] at hx2
          obtain ⟨r, hr, hrx⟩ := List.mem_map.1 hx
          exact hns r hr (by rw [hrx, hx2])

theorem storeWF_remove (deltaOf : String → Option ℚ) (store : Store)
    (s : String) (q : ℤ) (h : storeWF store) :
    storeWF (remove_position deltaOf store s q).2 := by
  unfold remove_position
  by_cases hq : q ≤ 0
  · rw [if_pos hq]; exact h
  · rw [if_neg hq]
    cases hp : findFirst store s with
    | none => exact h
    | some p =>
      dsimp only
      by_cases habs : |p.quantity| < q
      · rw [if_pos habs]; exact h
      · rw [if_neg habs]
        by_cases hz : (if 0 < p.quantity then p.quantity - q else p.quantity + q) = 0
        · simp only [hz, if_pos rfl]
          exact storeWF_eraseP store _ h
        · simp only [if_neg hz]
          constructor
          · intro r hr
            rcases mem_updateFirst hr with hr | hr
            · exact h.1 r hr
            · rw [hr]; exact hz
          · rw [map_symbol_updateFirst]
            exact h.2

theorem storeWF_applyOps (deltaOf : String → Option ℚ) (ops : List StoreOp)
    (store : Store) (h : storeWF store) :
    storeWF (applyOps deltaOf ops store) := by
  induction ops generalizing store with
  | nil => exact h
  | cons op rest ih =>
    unfold applyOps
    rw [List.foldl_cons]
    cases op with
    | add s q => exact ih _ (storeWF_add deltaOf store s q h)
    | remove s q => exact ih _ (storeWF_remove deltaOf store s q h)

theorem findFirst_eraseP_none {store : Store} {s : String}
    (hnd : (store.map (fun p => p.symbol)).Nodup) :
    findFirst (store.eraseP (fun r => r.symbol == s)) s = none := by
  induction store with
  | nil => rfl
  | cons r rest ih =>
    by_cases hr : r.symbol = s
    · rw [show (r :: rest).eraseP (fun x => x.symbol == s) = rest from by
        simp [List.eraseP_cons, hr]]
      unfold findFirst
      rw [List.find?_eq_none]
      intro x hx
      simp only [beq_iff_eq]
      intro hxs
      simp only [List.map_cons, List.nodup_cons] at hnd
      exact hnd.1 (List.mem_map.2 ⟨x, hx, by rw [hxs, hr]⟩)
    · rw [show (r :: rest).eraseP (fun x => x.symbol == s) =
          r :: rest.eraseP (fun x => x.symbol == s) from by
        simp [List.eraseP_cons, hr]]
      unfold findFirst
      rw [List.find?_cons_of_neg _ (by simpa using hr)]
      simp only [List.map_cons, List.nodup_cons] at hnd
      exact ih hnd.2


/-- C9: from an empty table, every sequence of add/remove operations keeps
the invariant (non-zero quantities, one row per symbol); and on any
well-formed table, an add that nets an existing lot to exactly zero deletes
the row — afterwards no row for the symbol remains. -/
theorem positions_store_invariant (deltaOf : String → Option ℚ) (ops : List StoreOp)
    (store : Store) (s : String) (q : ℤ) (d : ℚ) (p : StoredPosition)
    (hwf : storeWF store) (hq : q ≠ 0) (hd : deltaOf s = some d)
    (hp : findFirst store s = some p) (h0 : p.quantity + q = 0) :
    storeWF (applyOps deltaOf ops []) ∧
    add_position deltaOf store s q =
      (true, store.eraseP (fun r => r.symbol == s)) ∧
    findFirst (add_position deltaOf store s q).2 s = none := by
  have hadd : add_position deltaOf store s q =
      (true, store.eraseP (fun r => r.symbol == s)) := by
    unfold add_position
    rw [if_neg hq, hd]
    dsimp only
    rw [hp]
    dsimp only
    rw [if_pos h0]
  have hempty : storeWF ([] : Store) := ⟨by simp, by simp⟩
  refine ⟨storeWF_applyOps deltaOf ops [] hempty, hadd, ?_⟩
  rw [hadd]
  exact findFirst_eraseP_none hwf.2

/-- Witness for C9: adding −2 against a held +2 lot deletes the row. -/
theorem positions_store_invariant_witness :
    storeWF (applyOps dOf9W ops9W []) ∧
    add_position dOf9W store9W "SOL-USD-215-C" (-2) =
      (true, store9W.eraseP (fun r => r.symbol == "SOL-USD-215-C")) ∧
    findFirst (add_position dOf9W store9W "SOL-USD-215-C" (-2)).2 "SOL-USD-215-C" =
      none :=
  positions_store_invariant dOf9W ops9W store9W "SOL-USD-215-C" (-2) 1 pos9W
    (show (∀ r ∈ store9W, r.quantity ≠ 0) ∧
        (store9W.map (fun r => r.symbol)).Nodup by
      refine ⟨?_, by simp [store9W]⟩
      intro r hr
      simp only [store9W, List.mem_singleton] at hr
      rw [hr]
      decide)
    (by decide) rfl rfl (by decide)

/-- C10: `remove_position` fails and leaves the table unchanged when the
requested quantity is non-positive, when no row exists, or when it exceeds
the held magnitude; otherwise it succeeds, the held magnitude shrinks by
exactly the requested quantity with the side preserved
(`sign * (|held| - q)`), and the row is deleted when the result is zero. -/
theorem remove_position_contract (deltaOf : String → Option ℚ) (store : Store)
    (s : String) (q : ℤ) :
    remove_position deltaOf store s q =
      if q ≤ 0 then (false, store)
      else
        match findFirst store s with
        | none => (false, store)
        | some p =>
          if |p.quantity| < q then (false, store)
          else if |p.quantity| = q then
            (true, store.eraseP (fun r => r.symbol == s))
          else
            (true, updateFirst store s (p.quantity.sign * (|p.quantity| - q))
              (deltaOf s)) := by
  unfold remove_position
  by_cases hq : q ≤ 0
  · rw [if_pos hq, if_pos hq]
  · rw [if_neg hq, if_neg hq]
    have hq0 : 0 < q := by omega
    cases hp : findFirst store s with
    | none => rfl
    | some p =>
      dsimp only
      by_cases habs : |p.quantity| < q
      · rw [if_pos habs, if_pos habs]
      · rw [if_neg habs, if_neg habs]
        rcases lt_trichotomy p.quantity 0 with hneg | hzero | hpos
        · have habs2 : |p.quantity| = -p.quantity := abs_of_neg hneg
          have hsign : p.quantity.sign = -1 :=
            Int.sign_eq_neg_one_iff_neg.mpr hneg
          rw [if_neg (by omega : ¬ 0 < p.quantity), habs2, hsign]
          by_cases he : p.quantity + q = 0
          · rw [if_pos he, if_pos (by omega : -p.quantity = q)]
          · rw [if_neg he, if_neg (by omega : ¬ -p.quantity = q),
              show (-1 : ℤ) * (-p.quantity - q) = p.quantity + q by ring]
        · exact absurd (by rw [hzero]; simpa using hq0) habs
        · have habs2 : |p.quantity| = p.quantity := abs_of_pos hpos
          have hsign : p.quantity.sign = 1 :=
            Int.sign_eq_one_iff_pos.mpr hpos
          rw [if_pos hpos, habs2, hsign]
          by_cases he : p.quantity - q = 0
          · rw [if_pos he, if_pos (by omega : p.quantity = q)]
          · rw [if_neg he, if_neg (by omega : ¬ p.quantity = q), one_mul]

end ParadexLighterArb
